import Mathlib

/-!
Shallow embedding of `src/geomancy/environment/load_environment.py`.

The module contains a dotenv-style parser built from four regexes
(`env_re`, `sub_re`, `comment_re`, `escaped_quote_re`), a substitution
helper `sub_env`, the parser `parse_env_str`, and the loader `load_env`.

Modelling conventions:
* Python strings become `String` / `List Char`; scanning works on `List Char`.
* The ambient process environment `os.environ` is passed explicitly as a
  function `String → Option String`; the loader returns the updated function.
* `env_re` (compiled with MULTILINE, VERBOSE and DOTALL) is embedded as a
  hand-written matcher that reproduces the backtracking engine's behaviour on
  this fixed pattern: greedy `\s*` pieces try the longest prefix first, the
  lazy `.+?` tries the shortest first, the alternation prefers the quoted
  branch, `^` matches at the string start or after a newline, `$` at the end
  or before a newline, and the backreference `(?P=quote)` compares the exact
  quote run.  `\s` and `\w` are modelled over their ASCII ranges.
* Fallible code (`raise NotImplementedError`, `codecs.decode`) returns
  `Except`.  Functions whose Python counterparts loop over a shrinking
  string take a fuel argument `length + 1`, which a step-by-step count shows
  can never run out (every iteration consumes at least one character).
-/

namespace Geomancy

/-- Python `\s` over ASCII: space, tab, newline, carriage return, vertical
tab and form feed. -/
def isWsChar (c : Char) : Bool :=
  c == ' ' || c == '\t' || c == '\n' || c == '\r' || c == '\x0b' || c == '\x0c'

/-- First character of a variable name, the class `[a-zA-Z_]` of `env_re`
and `sub_re`. -/
def isNameStart (c : Char) : Bool :=
  ('a' ≤ c && c ≤ 'z') || ('A' ≤ c && c ≤ 'Z') || c == '_'

/-- Later characters of a variable name, the class `[a-zA-Z0-9_]` (also
Python `\w` restricted to ASCII). -/
def isNameChar (c : Char) : Bool :=
  ('a' ≤ c && c ≤ 'z') || ('A' ≤ c && c ≤ 'Z') || ('0' ≤ c && c ≤ '9') || c == '_'

/-- Characters of the quote-run class `["|']` of `env_re`; the class also
contains a literal pipe character. -/
def isQuoteClassChar (c : Char) : Bool :=
  c == '"' || c == '|' || c == '\x27'

/-- Characters allowed by the class `[^'"\n]` (unquoted values and the
trailing junk after a closing quote). -/
def isValChar (c : Char) : Bool :=
  !(c == '\x27' || c == '"' || c == '\n')

/-- Exact prefix test, used for the backreference `(?P=quote)`. -/
def startsWithL : List Char → List Char → Bool
  | [], _ => true
  | _ :: _, [] => false
  | p :: ps, c :: cs => p == c && startsWithL ps cs

/-- Name capture `[a-zA-Z_]+[a-zA-Z0-9_]*`: a maximal run of name characters
whose first character is not a digit (the two greedy pieces never backtrack
because name characters, whitespace and `=` are disjoint). -/
def nameTake : List Char → Option (List Char × List Char)
  | [] => none
  | c :: t =>
    if isNameStart c then some (c :: t.takeWhile isNameChar, t.dropWhile isNameChar)
    else none

/-- Tail piece `\s*$` of `env_re`: the greedy `\s*` takes the longest
whitespace prefix after which `$` holds, i.e. the end of the string or a
position just before a newline.  Returns the number of characters consumed
by the match (the newline under `$` is not consumed). -/
def wsEolEnd : List Char → Option Nat
  | [] => some 0
  | c :: t =>
    if isWsChar c then
      match wsEolEnd t with
      | some k => some (k + 1)
      | none => if c == '\n' then some 0 else none
    else if c == '\n' then some 0 else none

/-- Piece `[^'"\n]*\s*$` after the closing quote: greedy junk, longest
first, then `wsEolEnd`.  Returns the consumed count. -/
def junkEolEnd : List Char → Option Nat
  | [] => some 0
  | c :: t =>
    if isValChar c then
      match junkEolEnd t with
      | some k => some (k + 1)
      | none => wsEolEnd (c :: t)
    else wsEolEnd (c :: t)

/-- Piece `(?P=quote)[^'"\n]*\s*$`: the backreference `q` followed by
`junkEolEnd`.  Returns the consumed count. -/
def tailEnd (q : List Char) (t : List Char) : Option Nat :=
  if startsWithL q t then (junkEolEnd (t.drop q.length)).map (· + q.length)
  else none

/-- Piece `\s*(?P=quote)[^'"\n]*\s*$` that closes a quoted value: the
greedy `\s*` tries the longest whitespace prefix first and backtracks
outward on failure of the rest. -/
def closeTry (q : List Char) : List Char → Option Nat
  | [] => tailEnd q []
  | c :: t =>
    if isWsChar c then
      match closeTry q t with
      | some k => some (k + 1)
      | none => tailEnd q (c :: t)
    else tailEnd q (c :: t)

/-- Lazy loop of `(?P<qvalue>.+?)\s*(?P=quote)[^'"\n]*\s*$`: `acc` is the
content captured so far (at least one character, supplied by the caller);
at each step the engine first tries to close the value and otherwise grows
the capture by one character (DOTALL lets it cross newlines).  Returns the
capture and the suffix after the whole match. -/
def qtry (q : List Char) (acc : List Char) : List Char → Option (List Char × List Char)
  | [] =>
    match closeTry q [] with
    | some k => some (acc, List.drop k [])
    | none => none
  | c :: t2 =>
    match closeTry q (c :: t2) with
    | some k => some (acc, (c :: t2).drop k)
    | none => qtry q (acc ++ [c]) t2

/-- Piece `\s*(?P<qvalue>.+?)…` after the quote run: the greedy leading
`\s*` tries the longest whitespace prefix first; the lazy capture then
starts with one mandatory character. -/
def quotedAfterRun (q : List Char) : List Char → Option (List Char × List Char)
  | [] => none
  | c :: t =>
    if isWsChar c then
      match quotedAfterRun q t with
      | some r => some r
      | none => qtry q [c] t
    else qtry q [c] t

/-- Quote run `["|']{1,3}`: greedy, so runs of length 3, 2, 1 are tried in
that order.  Returns the run, the capture and the suffix after the match. -/
def quotedTryLens : Nat → List Char → Option (List Char × List Char × List Char)
  | 0, _ => none
  | n + 1, t =>
    match quotedAfterRun (t.take (n + 1)) (t.drop (n + 1)) with
    | some (qv, rest) => some (t.take (n + 1), qv, rest)
    | none => quotedTryLens n t

/-- Quoted alternative `(?P<quote>["|']{1,3})\s*(?P<qvalue>.+?)\s*(?P=quote)[^'"\n]*`
followed by the trailing `\s*$` of the whole pattern. -/
def quotedMatch (t : List Char) : Option (List Char × List Char × List Char) :=
  quotedTryLens (min (t.takeWhile isQuoteClassChar).length 3) t

/-- Unquoted alternative `(?P<value>[^'"\n]+)` followed by `\s*$`: the
greedy value class backtracks from the longest prefix; returns the pair
(value length, extra whitespace consumed by `\s*$`). -/
def unqSearch : List Char → Option (Nat × Nat)
  | [] => (wsEolEnd []).map (fun k => (0, k))
  | c :: t =>
    if isValChar c then
      match unqSearch t with
      | some (j, k) => some (j + 1, k)
      | none => (wsEolEnd (c :: t)).map (fun k => (0, k))
    else (wsEolEnd (c :: t)).map (fun k => (0, k))

/-- Unquoted value: the class requires at least one character. -/
def unquotedMatch (t : List Char) : Option (List Char × List Char) :=
  match unqSearch t with
  | some (j, k) => if j ≥ 1 then some (t.take j, t.drop (j + k)) else none
  | none => none

/-- Raw value captured by one of the two alternatives of `env_re`. -/
inductive RawVal where
  | quoted (quote : List Char) (qv : List Char)
  | plain (v : List Char)

/-- Both alternatives of `env_re` at a fixed position, the quoted branch
preferred over the unquoted one. -/
def valueAltHere (t : List Char) : Option (RawVal × List Char) :=
  match quotedMatch t with
  | some (q, qv, rest) => some (.quoted q qv, rest)
  | none =>
    match unquotedMatch t with
    | some (v, rest) => some (.plain v, rest)
    | none => none

/-- Alternation `\s*((quoted)|(value))` after the `=` sign: the greedy
`\s*` tries the longest whitespace prefix first, and at each backtracking
depth both alternatives are tried. -/
def valueAlt : List Char → Option (RawVal × List Char)
  | [] => valueAltHere []
  | c :: t =>
    if isWsChar c then
      match valueAlt t with
      | some r => some r
      | none => valueAltHere (c :: t)
    else valueAltHere (c :: t)

/-- Mirror of the Python match object's `groupdict()`: every named group is
present, unused groups hold `None`. -/
structure EnvMatch where
  name : String
  quote : Option String
  qvalue : Option String
  value : Option String
deriving Repr, DecidableEq

/-- Builds the group dictionary from the branch that matched. -/
def mkEnvMatch (nm : List Char) : RawVal → EnvMatch
  | .quoted q qv => ⟨⟨nm⟩, some ⟨q⟩, some ⟨qv⟩, none⟩
  | .plain v => ⟨⟨nm⟩, none, none, some ⟨v⟩⟩

/-- Anchor `^` under MULTILINE: start of the string or just after a
newline.  `prev` is the character before the current position. -/
def lineStart : Option Char → Bool
  | none => true
  | some c => c == '\n'

/-- One match attempt of `env_re` at the current position: `^\s*` (both
pieces deterministic because whitespace and name characters are disjoint),
the name, `\s*=\s*`, then the value alternation.  Returns the group
dictionary and the suffix after the match. -/
def matchAt (prev : Option Char) (t : List Char) : Option (EnvMatch × List Char) :=
  if lineStart prev then
    match nameTake (t.dropWhile isWsChar) with
    | none => none
    | some (nm, t2) =>
      match t2.dropWhile isWsChar with
      | '=' :: t4 =>
        match valueAlt t4 with
        | some (rv, rest) => some (mkEnvMatch nm rv, rest)
        | none => none
      | _ => none
  else none

/-- Scanning loop of `finditer`: try a match at every position, yield it
and continue after its end (advancing one character if the match were
empty, which cannot happen for `env_re`: a match contains at least a name
and `=`).  The fuel decreases by one per step while the text loses at least
one character, so `length + 1` fuel never runs out. -/
def scanAux : Nat → Option Char → List Char → List EnvMatch
  | 0, _, _ => []
  | fuel + 1, prev, t =>
    match matchAt prev t with
    | some (m, rest) =>
      if rest.length < t.length then
        m :: scanAux fuel ((t.take (t.length - rest.length)).getLast?) rest
      else
        match t with
        | [] => [m]
        | c :: t2 => m :: scanAux fuel (some c) t2
    | none =>
      match t with
      | [] => []
      | c :: t2 => scanAux fuel (some c) t2

/-- All matches of `env_re` over the text, in order (`env_re.finditer`). -/
def findMatches (s : List Char) : List EnvMatch :=
  scanAux (s.length + 1) none s

/-! ### Value resolution: `sub_env`, comment stripping, escape decoding -/

/-- Ordered mapping used for Python's `dict`: lookup finds the first
matching key. -/
def dictGet : List (String × String) → String → Option String
  | [], _ => none
  | (k, v) :: t, n => if k == n then some v else dictGet t n

/-- Python `dict` assignment `d[name] = value`: an existing key keeps its
position and gets the new value, a new key is appended. -/
def dictSet : List (String × String) → String → String → List (String × String)
  | [], n, v => [(n, v)]
  | (k, w) :: t, n, v => if k == n then (k, v) :: t else (k, w) :: dictSet t n v

/-- Removal of a key from the ordered mapping (the entry a `**`-unpacking
binds to a named parameter does not reach `**kwargs`); the other entries
keep their order. -/
def dictDelete : List (String × String) → String → List (String × String)
  | [], _ => []
  | (k, w) :: t, n => if k == n then t else (k, w) :: dictDelete t n

/-- Body of the replacement callback `sub_func` in `sub_env`: the live
process environment wins, then the keyword arguments (the mapping resolved
so far), then the caller-supplied default. -/
def subFunc (environ : String → Option String) (kwargs : List (String × String))
    (missing_default : String) (name : String) : String :=
  match environ name with
  | some v => v
  | none =>
    match dictGet kwargs name with
    | some v => v
    | none => missing_default

/-- One match attempt of `sub_re = [$]?{\s*(?P<name>[A-Za-z_]\w*)\s*}` at
the current position, without the optional dollar sign.  All pieces are
deterministic: the character classes of the pattern are pairwise
disjoint. -/
def subCore : List Char → Option (List Char × List Char)
  | [] => none
  | c :: t =>
    if c == '\x7b' then
      match nameTake (t.dropWhile isWsChar) with
      | some (nm, t2) =>
        match t2.dropWhile isWsChar with
        | c2 :: t3 => if c2 == '\x7d' then some (nm, t3) else none
        | [] => none
      | none => none
    else none

/-- Full `sub_re` attempt: `[$]?` prefers to consume a dollar sign; the
retry without it cannot succeed at the same position (the next character
would be `$`, not an opening brace), so it is elided. -/
def subMatchAt : List Char → Option (List Char × List Char)
  | '$' :: t => subCore t
  | t => subCore t

/-- Scanning loop of `sub_re.sub(sub_func, string)`: leftmost matches are
replaced (the replacement is not rescanned), other characters are copied.
Fuel `length + 1` suffices: every step consumes at least one character. -/
def subEnvAux (environ : String → Option String) (kwargs : List (String × String))
    (dflt : String) : Nat → List Char → List Char
  | 0, t => t
  | fuel + 1, t =>
    match subMatchAt t with
    | some (nm, rest) =>
      (subFunc environ kwargs dflt ⟨nm⟩).data ++ subEnvAux environ kwargs dflt fuel rest
    | none =>
      match t with
      | [] => []
      | c :: t2 => c :: subEnvAux environ kwargs dflt fuel t2

/-- Embedding of the function `sub_env(string, missing_default="", **kwargs)`,
with `os.environ` passed explicitly and `kwargs` as an explicit ordered
mapping.  The keyword binding performed by the parser's call
`sub_env(value, **env_vars)` is modelled separately by `subEnvCall`. -/
def sub_env (environ : String → Option String) (string : String)
    (missing_default : String := "") (kwargs : List (String × String) := []) : String :=
  ⟨subEnvAux environ kwargs missing_default (string.data.length + 1) string.data⟩

/-- Substitution of `escaped_quote_re = \\(['"])` by the captured quote:
a backslash directly followed by a quote character is dropped; scanning
continues after each replacement (matches do not overlap). -/
def escQuoteSub : List Char → List Char
  | [] => []
  | [c] => [c]
  | a :: b :: t =>
    if a == '\\' && (b == '\x27' || b == '"') then b :: escQuoteSub t
    else a :: escQuoteSub (b :: t)

/-- Python `str.strip()` over the modelled whitespace class. -/
def stripWs (l : List Char) : List Char :=
  ((l.dropWhile isWsChar).reverse.dropWhile isWsChar).reverse

/-- Python `str.strip()` on strings. -/
def pyStrip (s : String) : String :=
  ⟨stripWs s.data⟩

/-- Length of the maximal run of non-newline characters, the greedy `.+`
of `comment_re` (compiled without DOTALL). -/
def nonNlRun (t : List Char) : Nat :=
  (t.takeWhile (fun c => !(c == '\n'))).length

/-- One match attempt of `comment_re = (^|\s+)(#.+)$` (no MULTILINE: `^`
only at the string start, `$` at the end or before a trailing newline).
Returns (length of group 1, total consumed length).  The `^` branch is
tried before `\s+`; `\s+` cannot backtrack to a shorter run because the
run is delimited by the non-whitespace `#`; the greedy `.+` always ends at
a position where `$` holds. -/
def commentMatchAt (atStart : Bool) (t : List Char) : Option (Nat × Nat) :=
  if atStart && t.head? == some '#' && decide (1 ≤ nonNlRun (t.drop 1)) then
    some (0, 1 + nonNlRun (t.drop 1))
  else
    let m := (t.takeWhile isWsChar).length
    if 1 ≤ m && t.get? m == some '#' && decide (1 ≤ nonNlRun (t.drop (m + 1))) then
      some (m, m + 1 + nonNlRun (t.drop (m + 1)))
    else none

/-- Scanning loop of `comment_re.sub(r"\1", value)`: a match is replaced
by its first group (the whitespace before the `#`), other characters are
copied.  Fuel `length + 1` suffices: every step consumes at least one
character. -/
def commentSubAux : Nat → Bool → List Char → List Char
  | 0, _, t => t
  | fuel + 1, atStart, t =>
    match commentMatchAt atStart t with
    | some (g1, e) => t.take g1 ++ commentSubAux fuel false (t.drop e)
    | none =>
      match t with
      | [] => []
      | c :: t2 => c :: commentSubAux fuel false t2

/-- Embedding of `comment_re.sub(r"\1", value)`. -/
def commentSub (s : String) : String :=
  ⟨commentSubAux (s.data.length + 1) true s.data⟩

/-! ### `codecs.decode(value, "unicode_escape")`

`codecs.decode` first encodes the `str` argument with UTF-8 and then
decodes the bytes: plain bytes map to U+0000–U+00FF, escape sequences are
interpreted, invalid escapes are kept verbatim, and truncated `\x`, `\u`,
`\U` sequences raise `UnicodeDecodeError`. -/

/-- UTF-8 bytes of one character. -/
def utf8Bytes (c : Char) : List Nat :=
  let n := c.toNat
  if n < 128 then [n]
  else if n < 2048 then [192 + n / 64, 128 + n % 64]
  else if n < 65536 then [224 + n / 4096, 128 + n / 64 % 64, 128 + n % 64]
  else [240 + n / 262144, 128 + n / 4096 % 64, 128 + n / 64 % 64, 128 + n % 64]

/-- UTF-8 bytes of a string. -/
def utf8Encode : List Char → List Nat
  | [] => []
  | c :: t => utf8Bytes c ++ utf8Encode t

/-- Hexadecimal digit value of a byte, if any. -/
def hexDigit : Nat → Option Nat :=
  fun b =>
    if 48 ≤ b && b ≤ 57 then some (b - 48)
    else if 97 ≤ b && b ≤ 102 then some (b - 87)
    else if 65 ≤ b && b ≤ 70 then some (b - 55)
    else none

/-- Reads exactly `k` hexadecimal digits. -/
def hexTake (acc : Nat) : Nat → List Nat → Option (Nat × List Nat)
  | 0, t => some (acc, t)
  | _ + 1, [] => none
  | k + 1, b :: t =>
    match hexDigit b with
    | some d => hexTake (acc * 16 + d) k t
    | none => none

/-- Reads up to `k` further octal digits. -/
def octTake (acc : Nat) : Nat → List Nat → Nat × List Nat
  | 0, t => (acc, t)
  | _ + 1, [] => (acc, [])
  | k + 1, b :: t =>
    if 48 ≤ b && b ≤ 55 then octTake (acc * 8 + (b - 48)) k t
    else (acc, b :: t)

/-- Decoding loop of the `unicode_escape` codec over a byte list.  A
backslash-newline pair is a line continuation; `\N{...}` name lookups are
conservatively modelled as a decoding error (the Unicode name database is
outside this embedding); escapes denoting surrogate code points, which
Lean's `Char` cannot carry, land on `Char.ofNat`'s default.  Fuel
`length + 1` suffices: every step consumes at least one byte. -/
def uniEscape : Nat → List Nat → Except String (List Char)
  | 0, _ => .error "fuel exhausted"
  | _ + 1, [] => .ok []
  | fuel + 1, b :: t =>
    if b == 92 then
      match t with
      | [] => .error "backslash at end of string"
      | e :: t2 =>
        if e == 10 then uniEscape fuel t2
        else if e == 92 then (uniEscape fuel t2).map (fun r => '\\' :: r)
        else if e == 39 then (uniEscape fuel t2).map (fun r => '\x27' :: r)
        else if e == 34 then (uniEscape fuel t2).map (fun r => '"' :: r)
        else if e == 97 then (uniEscape fuel t2).map (fun r => '\x07' :: r)
        else if e == 98 then (uniEscape fuel t2).map (fun r => '\x08' :: r)
        else if e == 102 then (uniEscape fuel t2).map (fun r => '\x0c' :: r)
        else if e == 110 then (uniEscape fuel t2).map (fun r => '\n' :: r)
        else if e == 114 then (uniEscape fuel t2).map (fun r => '\r' :: r)
        else if e == 116 then (uniEscape fuel t2).map (fun r => '\t' :: r)
        else if e == 118 then (uniEscape fuel t2).map (fun r => '\x0b' :: r)
        else if 48 ≤ e && e ≤ 55 then
          let (v, rest) := octTake (e - 48) 2 t2
          (uniEscape fuel rest).map (fun r => Char.ofNat v :: r)
        else if e == 120 then
          match hexTake 0 2 t2 with
          | some (v, rest) => (uniEscape fuel rest).map (fun r => Char.ofNat v :: r)
          | none => .error "truncated hex escape"
        else if e == 117 then
          match hexTake 0 4 t2 with
          | some (v, rest) => (uniEscape fuel rest).map (fun r => Char.ofNat v :: r)
          | none => .error "truncated unicode escape"
        else if e == 85 then
          match hexTake 0 8 t2 with
          | some (v, rest) =>
            if v > 1114111 then .error "illegal Unicode character"
            else (uniEscape fuel rest).map (fun r => Char.ofNat v :: r)
          | none => .error "truncated long unicode escape"
        else if e == 78 then .error "unicode name escapes are not modelled"
        else (uniEscape fuel t2).map (fun r => '\\' :: Char.ofNat e :: r)
    else (uniEscape fuel t).map (fun r => Char.ofNat b :: r)

/-- Embedding of `codecs.decode(value, "unicode_escape")`. -/
def unicodeEscapeDecode (s : String) : Except String String :=
  let bytes := utf8Encode s.data
  (uniEscape (bytes.length + 1) bytes).map (fun l => ⟨l⟩)

/-! ### `parse_env_str` and `load_env` -/

/-- Error surface of `parse_env_str`: the `raise NotImplementedError`
branch, the exceptions escaping from `codecs.decode`, and the `TypeError`
raised by the keyword binding of `sub_env(value, **env_vars)`. -/
inductive ParseErr where
  | notImplemented
  | decodeErr (msg : String)
  | typeErr (msg : String)
deriving Repr, DecidableEq

/-- Call site `sub_env(value, **env_vars)` with Python's keyword binding:
`value` is passed positionally to the parameter `string`, so a parsed
variable literally named `string` raises
`TypeError: sub_env() got multiple values for argument 'string'`; a
variable named `missing_default` binds that parameter instead of joining
`kwargs`; the remaining entries become the keyword arguments, in order. -/
def subEnvCall (environ : String → Option String) (value : String)
    (env_vars : List (String × String)) : Except ParseErr String :=
  if (dictGet env_vars "string").isSome then
    .error (.typeErr "sub_env() got multiple values for argument \x27string\x27")
  else
    .ok (sub_env environ value ((dictGet env_vars "missing_default").getD "")
      (dictDelete env_vars "missing_default"))

/-- Loop body of `parse_env_str`: given the mapping resolved so far and
one match, resolve the value exactly as the Python loop does.  Unquoted
values are stripped, comment-stripped and substituted; quoted values are
unescaped, and additionally escape-decoded and substituted when the quote
run contains a double quote; neither branch taken is the internal-defect
branch `raise NotImplementedError`. -/
def resolveMatch (environ : String → Option String) (strip_values : Bool)
    (env_vars : List (String × String)) (m : EnvMatch) :
    Except ParseErr (List (String × String)) :=
  if (m.value.getD "") ≠ "" then
    let value := pyStrip (m.value.getD "")
    let value := commentSub value
    match subEnvCall environ value env_vars with
    | .error e => .error e
    | .ok value => .ok (dictSet env_vars m.name (if strip_values then pyStrip value else value))
  else if (m.qvalue.getD "") ≠ "" then
    let value : String := ⟨escQuoteSub (m.qvalue.getD "").data⟩
    if (m.quote.getD "").data.contains '"' then
      match unicodeEscapeDecode value with
      | .error msg => .error (.decodeErr msg)
      | .ok decoded =>
        match subEnvCall environ decoded env_vars with
        | .error e => .error e
        | .ok value2 => .ok (dictSet env_vars m.name value2)
    else .ok (dictSet env_vars m.name value)
  else .error .notImplemented

/-- Folding loop of `parse_env_str` over the matches, in file order. -/
def parseLoop (environ : String → Option String) (strip_values : Bool) :
    List EnvMatch → List (String × String) → Except ParseErr (List (String × String))
  | [], env_vars => .ok env_vars
  | m :: ms, env_vars =>
    match resolveMatch environ strip_values env_vars m with
    | .error e => .error e
    | .ok env_vars2 => parseLoop environ strip_values ms env_vars2

/-- Embedding of `parse_env_str(string, strip_values=True)`, with
`os.environ` passed explicitly.  The match phase is independent of the
resolution phase, exactly as `env_re.finditer` computes all matches from
the raw text alone. -/
def parse_env_str (environ : String → Option String) (string : String)
    (strip_values : Bool := true) : Except ParseErr (List (String × String)) :=
  parseLoop environ strip_values (findMatches string.data) []

/-- Outcome of `Path.read_text()`: the loader distinguishes
`FileNotFoundError` (caught) from any other read error (uncaught). -/
inductive ReadErr where
  | fileNotFound
  | otherErr (msg : String)
deriving Repr, DecidableEq

/-- Exceptions escaping `load_env`: read errors other than
`FileNotFoundError`, and everything `parse_env_str` raises. -/
inductive LoadErr where
  | ioErr (msg : String)
  | parseErr (e : ParseErr)
deriving Repr, DecidableEq

/-- Process-environment update `os.environ[name] = value`. -/
def updateEnv (environ : String → Option String) (n v : String) : String → Option String :=
  fun k => if k = n then some v else environ k

/-- Loop body of `load_env`: skip a variable already present in the live
environment unless `overwrite` is set, otherwise set it and count it. -/
def applyEnvVar (overwrite : Bool) :
    Nat × (String → Option String) → String × String → Nat × (String → Option String)
  | (count, environ), (name, value) =>
    if (environ name).isSome && !overwrite then (count, environ)
    else (count + 1, updateEnv environ name value)

/-- Embedding of `load_env(filepath, overwrite=False)`: the filesystem is
a function from paths to read outcomes, the process environment is passed
and returned explicitly, and the third component collects the `logger`
error messages (debug logging is not modelled).  Only `FileNotFoundError`
is caught; other read errors and parse exceptions propagate. -/
def load_env (fs : String → Except ReadErr String) (environ : String → Option String)
    (filepath : String) (overwrite : Bool := false) (strip_values : Bool := true) :
    Except LoadErr (Nat × (String → Option String) × List String) :=
  match fs filepath with
  | .error .fileNotFound =>
    .ok (0, environ, ["Could not file the file \x27" ++ filepath ++ "\x27"])
  | .error (.otherErr msg) => .error (.ioErr msg)
  | .ok string =>
    match parse_env_str environ string strip_values with
    | .error e => .error (.parseErr e)
    | .ok env_vars =>
      let r := env_vars.foldl (applyEnvVar overwrite) (0, environ)
      .ok (r.1, r.2, [])

/-! ### Auxiliary facts about the character classes and the scanners -/

/-- Valid variable name (`[a-zA-Z_][a-zA-Z0-9_]*`), the identifier grammar
shared by `env_re` and `sub_re`. -/
def isValidName (l : List Char) : Bool :=
  match l with
  | [] => false
  | c :: cs => isNameStart c && cs.all isNameChar

theorem stringMkData (s : String) : String.mk s.data = s := rfl

theorem mk_cons_ne_empty (c : Char) (l : List Char) : (⟨c :: l⟩ : String) ≠ "" := by
  intro h
  exact absurd (congrArg String.data h) (by simp)

theorem isNameStart_isNameChar {c : Char} (h : isNameStart c = true) : isNameChar c = true := by
  simp only [isNameStart, Bool.or_eq_true, Bool.and_eq_true, decide_eq_true_eq,
    beq_iff_eq] at h
  simp only [isNameChar, Bool.or_eq_true, Bool.and_eq_true, decide_eq_true_eq, beq_iff_eq]
  tauto

theorem isNameChar_not_ws {c : Char} (h : isNameChar c = true) : isWsChar c = false := by
  cases hw : isWsChar c
  · rfl
  · exfalso
    simp only [isWsChar, Bool.or_eq_true, beq_iff_eq] at hw
    rcases hw with ((((h1 | h1) | h1) | h1) | h1) | h1 <;> subst h1 <;>
      exact absurd h (by decide)

theorem isNameChar_beq_false {c d : Char} (h : isNameChar c = true)
    (hd : isNameChar d = false) : (c == d) = false := by
  cases hb : c == d
  · rfl
  · rw [beq_iff_eq] at hb; subst hb; rw [h] at hd; exact Bool.noConfusion hd

theorem validName_all {l : List Char} (h : isValidName l = true) :
    ∀ e ∈ l, isNameChar e = true := by
  match l, h with
  | c :: cs, h =>
    simp only [isValidName, Bool.and_eq_true, List.all_eq_true] at h
    intro e he
    rcases List.mem_cons.mp he with rfl | he2
    · exact isNameStart_isNameChar h.1
    · exact h.2 e he2

theorem startsWithL_self (l : List Char) : startsWithL l l = true := by
  induction l with
  | nil => rfl
  | cons c cs ih => simp [startsWithL, ih]

theorem takeWhile_all_append (p : Char → Bool) (l r : List Char)
    (h : ∀ c ∈ l, p c = true) : (l ++ r).takeWhile p = l ++ r.takeWhile p := by
  induction l with
  | nil => simp
  | cons c cs ih =>
    simp only [List.cons_append, List.takeWhile_cons, h c (by simp), if_true]
    rw [ih (fun d hd => h d (by simp [hd]))]

theorem dropWhile_all_append (p : Char → Bool) (l r : List Char)
    (h : ∀ c ∈ l, p c = true) : (l ++ r).dropWhile p = r.dropWhile p := by
  induction l with
  | nil => simp
  | cons c cs ih =>
    simp only [List.cons_append, List.dropWhile_cons, h c (by simp), if_true]
    exact ih (fun d hd => h d (by simp [hd]))

theorem nameTake_valid (c d : Char) (cs r2 : List Char)
    (h1 : isNameStart c = true) (h2 : ∀ e ∈ cs, isNameChar e = true)
    (hd : isNameChar d = false) :
    nameTake (c :: (cs ++ d :: r2)) = some (c :: cs, d :: r2) := by
  simp only [nameTake, h1, if_true]
  rw [takeWhile_all_append _ cs (d :: r2) h2, dropWhile_all_append _ cs (d :: r2) h2]
  simp [List.takeWhile_cons, List.dropWhile_cons, hd]

theorem escQuoteSub_id (l : List Char) (h : ∀ e ∈ l, (e == '\\') = false) :
    escQuoteSub l = l := by
  induction l with
  | nil => rfl
  | cons a t ih =>
    cases t with
    | nil => rfl
    | cons b t2 =>
      rw [escQuoteSub]
      rw [h a (by simp)]
      simp only [Bool.false_and, Bool.false_eq_true, if_false]
      rw [ih (fun e he => h e (by simp [he]))]

/-! ### One-step equations and basic lemmas for the fuelled scanners -/

theorem subEnvAux_succ (e : String → Option String) (k : List (String × String)) (d : String)
    (f : Nat) (t : List Char) :
    subEnvAux e k d (f + 1) t =
      match subMatchAt t with
      | some (nm2, rest) => (subFunc e k d ⟨nm2⟩).data ++ subEnvAux e k d f rest
      | none =>
        match t with
        | [] => []
        | c :: t2 => c :: subEnvAux e k d f t2 := rfl

theorem subEnvAux_nil (e : String → Option String) (k : List (String × String)) (d : String)
    (f : Nat) : subEnvAux e k d f [] = [] := by
  cases f <;> simp [subEnvAux, subMatchAt, subCore]

theorem scanAux_succ (f : Nat) (prev : Option Char) (t : List Char) :
    scanAux (f + 1) prev t =
      match matchAt prev t with
      | some (m, rest) =>
        if rest.length < t.length then
          m :: scanAux f ((t.take (t.length - rest.length)).getLast?) rest
        else
          match t with
          | [] => [m]
          | c :: t2 => m :: scanAux f (some c) t2
      | none =>
        match t with
        | [] => []
        | c :: t2 => scanAux f (some c) t2 := rfl

theorem matchAt_nil (prev : Option Char) : matchAt prev [] = none := by
  cases hl : lineStart prev <;> simp [matchAt, hl, nameTake]

theorem scanAux_nil (f : Nat) (prev : Option Char) : scanAux f prev [] = [] := by
  cases f <;> simp [scanAux, matchAt_nil]

theorem matchAt_not_linestart {prev : Option Char} (t : List Char)
    (h : lineStart prev = false) : matchAt prev t = none := by
  simp [matchAt, h]

theorem scanAux_no_nl : ∀ (t : List Char) (f : Nat) (c : Char), (c == '\n') = false →
    (∀ d ∈ t, (d == '\n') = false) → scanAux f (some c) t = []
  | _, 0, _, _, _ => rfl
  | [], f + 1, c, _, _ => scanAux_nil (f + 1) (some c)
  | d :: t2, f + 1, c, hc, hd => by
    rw [scanAux_succ, matchAt_not_linestart _ (by simp [lineStart, hc])]
    exact scanAux_no_nl t2 f d (hd d (by simp)) (fun e he => hd e (by simp [he]))

/-! ### The `sub_re` substitution on a single placeholder -/

theorem subCore_name (nm r : List Char) (h : isValidName nm = true) :
    subCore ('\x7b' :: (nm ++ '\x7d' :: r)) = some (nm, r) := by
  match nm, h with
  | c :: cs, h =>
    simp only [isValidName, Bool.and_eq_true, List.all_eq_true] at h
    have hcs : ∀ e ∈ cs, isNameChar e = true := fun e he => h.2 e he
    have hcns : isWsChar c = false := isNameChar_not_ws (isNameStart_isNameChar h.1)
    simp only [subCore, beq_self_eq_true, if_true]
    rw [List.cons_append, List.dropWhile_cons, hcns]
    simp only [Bool.false_eq_true, if_false]
    rw [nameTake_valid c '\x7d' cs r h.1 hcs (by decide)]
    simp [List.dropWhile_cons, show isWsChar '\x7d' = false from by decide]

/-- Replacement of the single placeholder `${nm}`: the process environment
wins, then the mapping resolved so far, then the default. -/
theorem sub_env_dollar (environ : String → Option String) (kwargs : List (String × String))
    (dflt : String) (nm : String) (h : isValidName nm.data = true) :
    sub_env environ ("$\x7b" ++ nm ++ "\x7d") dflt kwargs =
      (environ nm).getD ((dictGet kwargs nm).getD dflt) := by
  have hsm : subMatchAt (("$\x7b" ++ nm ++ "\x7d").data) = some (nm.data, []) := by
    rw [show ("$\x7b" ++ nm ++ "\x7d").data =
      '$' :: '\x7b' :: (nm.data ++ '\x7d' :: []) from rfl]
    show subCore ('\x7b' :: (nm.data ++ '\x7d' :: [])) = some (nm.data, [])
    exact subCore_name nm.data [] h
  show String.mk (subEnvAux environ kwargs dflt ((("$\x7b" ++ nm ++ "\x7d")).data.length + 1)
      (("$\x7b" ++ nm ++ "\x7d")).data) = _
  rw [subEnvAux_succ, hsm]
  simp only [subEnvAux_nil, List.append_nil, subFunc, stringMkData]
  cases he : environ nm with
  | some v => simp [stringMkData]
  | none =>
    cases hg : dictGet kwargs nm with
    | some v => simp [stringMkData]
    | none => simp [stringMkData]

/-- Replacement of the single placeholder `{nm}` (no dollar sign). -/
theorem sub_env_brace (environ : String → Option String) (kwargs : List (String × String))
    (dflt : String) (nm : String) (h : isValidName nm.data = true) :
    sub_env environ ("\x7b" ++ nm ++ "\x7d") dflt kwargs =
      (environ nm).getD ((dictGet kwargs nm).getD dflt) := by
  have hsm : subMatchAt (("\x7b" ++ nm ++ "\x7d").data) = some (nm.data, []) := by
    rw [show ("\x7b" ++ nm ++ "\x7d").data = '\x7b' :: (nm.data ++ '\x7d' :: []) from rfl]
    show subCore ('\x7b' :: (nm.data ++ '\x7d' :: [])) = some (nm.data, [])
    exact subCore_name nm.data [] h
  show String.mk (subEnvAux environ kwargs dflt ((("\x7b" ++ nm ++ "\x7d")).data.length + 1)
      (("\x7b" ++ nm ++ "\x7d")).data) = _
  rw [subEnvAux_succ, hsm]
  simp only [subEnvAux_nil, List.append_nil, subFunc, stringMkData]
  cases he : environ nm with
  | some v => simp [stringMkData]
  | none =>
    cases hg : dictGet kwargs nm with
    | some v => simp [stringMkData]
    | none => simp [stringMkData]

/-! ### Matching a quoted placeholder value made of name characters -/

theorem qtry_names (qr : List Char) (cs : List Char) (acc : List Char)
    (h : ∀ e ∈ cs, isNameChar e = true) :
    qtry ('\x27' :: qr) acc (cs ++ '\x7d' :: '\x27' :: qr) =
      some (acc ++ (cs ++ ['\x7d']), []) := by
  induction cs generalizing acc with
  | nil =>
    have h1 : closeTry ('\x27' :: qr) ('\x7d' :: '\x27' :: qr) = none := by
      simp [closeTry, show isWsChar '\x7d' = false from by decide, tailEnd, startsWithL]
    have h2 : closeTry ('\x27' :: qr) ('\x27' :: qr) = some (('\x27' :: qr).length) := by
      simp only [closeTry, show isWsChar '\x27' = false from by decide, Bool.false_eq_true,
        if_false, tailEnd, startsWithL_self, if_true, List.drop_length, junkEolEnd]
      simp
    simp only [List.nil_append, qtry, h1, h2, List.drop_length]
  | cons e cs2 ih =>
    have he : isNameChar e = true := h e (by simp)
    have hbe : ('\x27' == e) = false := by
      cases hb : '\x27' == e
      · rfl
      · rw [beq_iff_eq] at hb
        rw [← hb] at he
        exact absurd he (by decide)
    have h1 : closeTry ('\x27' :: qr) (e :: (cs2 ++ '\x7d' :: '\x27' :: qr)) = none := by
      simp [closeTry, isNameChar_not_ws he, tailEnd, startsWithL, hbe]
    rw [List.cons_append, qtry, h1, ih (acc ++ [e]) (fun d hd => h d (by simp [hd]))]
    simp

/-- Match of the whole line `NAME='{other}'` for a run of name characters
`other`: the quoted alternative captures `{other}` with the surrounding
single quotes as delimiters. -/
theorem matchAt_c4 (other : List Char) (h : ∀ e ∈ other, isNameChar e = true) :
    matchAt none ('N' :: 'A' :: 'M' :: 'E' :: '=' :: '\x27' :: '\x7b' ::
        (other ++ ['\x7d', '\x27'])) =
      some (⟨"NAME", some "\x27", some ⟨'\x7b' :: (other ++ ['\x7d'])⟩, none⟩, []) := by
  have hq : qtry ['\x27'] ['\x7b'] (other ++ '\x7d' :: '\x27' :: []) =
      some (['\x7b'] ++ (other ++ ['\x7d']), []) := qtry_names [] other ['\x7b'] h
  simp +decide [matchAt, lineStart, List.dropWhile_cons, nameTake, List.takeWhile_cons,
    valueAlt, valueAltHere, quotedMatch, quotedTryLens, quotedAfterRun, hq,
    unquotedMatch, unqSearch, mkEnvMatch]

/-- Match of the whole line `NAME='''{other}'''`. -/
theorem matchAt_c4t (other : List Char) (h : ∀ e ∈ other, isNameChar e = true) :
    matchAt none ('N' :: 'A' :: 'M' :: 'E' :: '=' :: '\x27' :: '\x27' :: '\x27' :: '\x7b' ::
        (other ++ ['\x7d', '\x27', '\x27', '\x27'])) =
      some (⟨"NAME", some "\x27\x27\x27", some ⟨'\x7b' :: (other ++ ['\x7d'])⟩, none⟩, []) := by
  have hq : qtry ['\x27', '\x27', '\x27'] ['\x7b']
      (other ++ '\x7d' :: '\x27' :: ['\x27', '\x27']) =
      some (['\x7b'] ++ (other ++ ['\x7d']), []) := qtry_names ['\x27', '\x27'] other ['\x7b'] h
  simp +decide [matchAt, lineStart, List.dropWhile_cons, nameTake, List.takeWhile_cons,
    valueAlt, valueAltHere, quotedMatch, quotedTryLens, quotedAfterRun, hq,
    unquotedMatch, unqSearch, mkEnvMatch]

/-! ### Failure of `env_re` on an assignment whose value matches neither
alternative -/

theorem matchAt_eq_val (c : Char) (cs r : List Char) (h1 : isNameStart c = true)
    (h2 : ∀ e ∈ cs, isNameChar e = true) (hv : valueAlt r = none) :
    matchAt none (c :: (cs ++ '=' :: r)) = none := by
  have hws : isWsChar c = false := isNameChar_not_ws (isNameStart_isNameChar h1)
  rw [matchAt]
  simp only [lineStart, if_true, List.dropWhile_cons, hws, Bool.false_eq_true, if_false]
  rw [nameTake_valid c '=' cs r h1 h2 (by decide)]
  simp +decide [List.dropWhile_cons, hv]

theorem scan_name_fail (c : Char) (cs r : List Char) (h1 : isNameStart c = true)
    (h2 : ∀ e ∈ cs, isNameChar e = true) (hv : valueAlt r = none)
    (hr : ∀ d ∈ r, (d == '\n') = false) :
    ∀ f, scanAux f none (c :: (cs ++ '=' :: r)) = [] := by
  intro f
  cases f with
  | zero => rfl
  | succ f2 =>
    rw [scanAux_succ, matchAt_eq_val c cs r h1 h2 hv]
    refine scanAux_no_nl _ f2 c
      (isNameChar_beq_false (isNameStart_isNameChar h1) (by decide)) ?_
    intro d hd
    rcases List.mem_append.mp hd with h3 | h3
    · exact isNameChar_beq_false (h2 d h3) (by decide)
    · rcases List.mem_cons.mp h3 with rfl | h4
      · decide
      · exact hr d h4

/-! ### Every match has a truthy value or a truthy quoted value -/

/-- Value captured by a successful alternative is nonempty. -/
def goodRaw : RawVal → Prop
  | .quoted _ qv => qv ≠ []
  | .plain v => v ≠ []

theorem qtry_ne : ∀ (t q acc qv rest : List Char), acc ≠ [] →
    qtry q acc t = some (qv, rest) → qv ≠ []
  | [], q, acc, qv, rest, ha, hm => by
    rw [qtry] at hm
    split at hm
    · injection hm with h1; cases h1; simp_all
    · exact Option.noConfusion hm
  | c :: t2, q, acc, qv, rest, ha, hm => by
    rw [qtry] at hm
    split at hm
    · injection hm with h1; cases h1; simp_all
    · exact qtry_ne t2 q (acc ++ [c]) qv rest (by simp) hm

theorem quotedAfterRun_ne : ∀ (t q qv rest : List Char),
    quotedAfterRun q t = some (qv, rest) → qv ≠ []
  | [], q, qv, rest, hm => by exact Option.noConfusion hm
  | c :: t2, q, qv, rest, hm => by
    rw [quotedAfterRun] at hm
    split at hm
    · split at hm
      · rename_i r hr
        injection hm with h1
        subst h1
        exact quotedAfterRun_ne t2 q qv rest hr
      · exact qtry_ne t2 q [c] qv rest (by simp) hm
    · exact qtry_ne t2 q [c] qv rest (by simp) hm

theorem quotedTryLens_ne : ∀ (n : Nat) (t q qv rest : List Char),
    quotedTryLens n t = some (q, qv, rest) → qv ≠ []
  | 0, t, q, qv, rest, hm => by exact Option.noConfusion hm
  | n + 1, t, q, qv, rest, hm => by
    rw [quotedTryLens] at hm
    split at hm
    · rename_i r qv2 rest2 hr
      injection hm with h1
      cases h1
      exact quotedAfterRun_ne _ _ _ _ hr
    · exact quotedTryLens_ne n t q qv rest hm

theorem unquotedMatch_ne (t v rest : List Char) (hm : unquotedMatch t = some (v, rest)) :
    v ≠ [] := by
  rw [unquotedMatch] at hm
  split at hm
  · rename_i j k hs
    split at hm
    · rename_i hj
      injection hm with h1
      cases h1
      cases t with
      | nil =>
        rw [show unqSearch [] = some (0, 0) from rfl] at hs
        injection hs with h2
        injection h2 with h3
        omega
      | cons c t2 =>
        obtain ⟨j2, rfl⟩ : ∃ j2, j = j2 + 1 := ⟨j - 1, by omega⟩
        simp [List.take_succ_cons]
    · exact Option.noConfusion hm
  · exact Option.noConfusion hm

theorem valueAltHere_good (t : List Char) (rv : RawVal) (rest : List Char)
    (hm : valueAltHere t = some (rv, rest)) : goodRaw rv := by
  rw [valueAltHere] at hm
  split at hm
  · rename_i r q qv rest2 hq
    injection hm with h1
    cases h1
    exact quotedTryLens_ne _ _ _ _ _ hq
  · split at hm
    · rename_i r v2 rest2 hu
      injection hm with h1
      cases h1
      exact unquotedMatch_ne _ _ _ hu
    · exact Option.noConfusion hm

theorem valueAlt_good : ∀ (t : List Char) (rv : RawVal) (rest : List Char),
    valueAlt t = some (rv, rest) → goodRaw rv
  | [], rv, rest, hm => valueAltHere_good [] rv rest hm
  | c :: t2, rv, rest, hm => by
    rw [valueAlt] at hm
    split at hm
    · split at hm
      · rename_i r hr
        injection hm with h1
        subst h1
        exact valueAlt_good t2 rv rest hr
      · exact valueAltHere_good _ _ _ hm
    · exact valueAltHere_good _ _ _ hm

/-- The two truthiness tests the resolver performs on a group dictionary:
one of them holds for every dictionary the matcher emits, so the
`raise NotImplementedError` branch is dead code. -/
def goodMatch (m : EnvMatch) : Prop :=
  (m.value.getD "") ≠ "" ∨ (m.qvalue.getD "") ≠ ""

theorem matchAt_good (prev : Option Char) (t : List Char) (m : EnvMatch) (rest : List Char)
    (hm : matchAt prev t = some (m, rest)) : goodMatch m := by
  rw [matchAt] at hm
  split at hm
  · split at hm
    · exact Option.noConfusion hm
    · split at hm
      · split at hm
        · rename_i nm t2 t4 r rv rest2 hv
          injection hm with h1
          cases h1
          have hg := valueAlt_good _ _ _ hv
          cases rv with
          | quoted q qv =>
            right
            cases qv with
            | nil => exact absurd rfl hg
            | cons a l => exact mk_cons_ne_empty a l
          | plain v =>
            left
            cases v with
            | nil => exact absurd rfl hg
            | cons a l => exact mk_cons_ne_empty a l
        · exact Option.noConfusion hm
      · exact Option.noConfusion hm
  · exact Option.noConfusion hm

theorem scanAux_good : ∀ (f : Nat) (prev : Option Char) (t : List Char) (m : EnvMatch),
    m ∈ scanAux f prev t → goodMatch m
  | 0, prev, t, m, hmem => absurd hmem (by simp [scanAux])
  | f + 1, prev, t, m, hmem => by
    rw [scanAux_succ] at hmem
    split at hmem
    · rename_i p m0 rest hm0
      split at hmem
      · rcases List.mem_cons.mp hmem with rfl | h2
        · exact matchAt_good _ _ _ _ hm0
        · exact scanAux_good f _ _ m h2
      · split at hmem
        · rcases List.mem_singleton.mp hmem with rfl
          exact matchAt_good _ _ _ _ hm0
        · rcases List.mem_cons.mp hmem with rfl | h2
          · exact matchAt_good _ _ _ _ hm0
          · exact scanAux_good f _ _ m h2
    · split at hmem
      · exact absurd hmem (by simp)
      · exact scanAux_good f _ _ m hmem

theorem findMatches_good (s : List Char) (m : EnvMatch) (hmem : m ∈ findMatches s) :
    goodMatch m :=
  scanAux_good _ _ _ _ hmem

theorem subEnvCall_collision (environ : String → Option String) (value : String)
    (env_vars : List (String × String)) (h : (dictGet env_vars "string").isSome = true) :
    subEnvCall environ value env_vars =
      .error (.typeErr "sub_env() got multiple values for argument \x27string\x27") := by
  rw [subEnvCall, if_pos h]

theorem subEnvCall_ok (environ : String → Option String) (value : String)
    (env_vars : List (String × String)) (h : (dictGet env_vars "string").isSome = false) :
    subEnvCall environ value env_vars =
      .ok (sub_env environ value ((dictGet env_vars "missing_default").getD "")
        (dictDelete env_vars "missing_default")) := by
  rw [subEnvCall, if_neg (by simp [h])]

/-- Outcomes of the loop body on a dictionary the matcher can emit: the
new mapping is the old one with the match's name set, or a decode error of
a double-quoted value, or the keyword-collision `TypeError` — never the
`NotImplementedError` branch. -/
theorem resolveMatch_good_shape (environ : String → Option String) (sv : Bool)
    (acc : List (String × String)) (m : EnvMatch) (hgm : goodMatch m) :
    (∃ v, resolveMatch environ sv acc m = .ok (dictSet acc m.name v)) ∨
      (∃ msg, resolveMatch environ sv acc m = .error (.decodeErr msg)) ∨
      (∃ msg, resolveMatch environ sv acc m = .error (.typeErr msg)) := by
  by_cases hv : (m.value.getD "") = ""
  · have hq : (m.qvalue.getD "") ≠ "" := by
      rcases hgm with h1 | h1
      · exact absurd hv h1
      · exact h1
    by_cases hdq : (m.quote.getD "").data.contains '"' = true
    · cases hde : unicodeEscapeDecode ⟨escQuoteSub (m.qvalue.getD "").data⟩ with
      | error msg =>
        refine .inr (.inl ⟨msg, ?_⟩)
        rw [resolveMatch, if_neg (by simpa using hv), if_pos hq, if_pos hdq, hde]
      | ok decoded =>
        by_cases hcol : (dictGet acc "string").isSome = true
        · refine .inr (.inr
            ⟨"sub_env() got multiple values for argument \x27string\x27", ?_⟩)
          rw [resolveMatch, if_neg (by simpa using hv), if_pos hq, if_pos hdq, hde]
          dsimp only
          rw [subEnvCall_collision environ decoded acc hcol]
        · refine .inl ⟨sub_env environ decoded ((dictGet acc "missing_default").getD "")
            (dictDelete acc "missing_default"), ?_⟩
          rw [resolveMatch, if_neg (by simpa using hv), if_pos hq, if_pos hdq, hde]
          dsimp only
          rw [subEnvCall_ok environ decoded acc (by simpa using hcol)]
    · refine .inl ⟨⟨escQuoteSub (m.qvalue.getD "").data⟩, ?_⟩
      rw [resolveMatch, if_neg (by simpa using hv), if_pos hq, if_neg hdq]
  · by_cases hcol : (dictGet acc "string").isSome = true
    · refine .inr (.inr ⟨"sub_env() got multiple values for argument \x27string\x27", ?_⟩)
      rw [resolveMatch, if_pos hv]
      dsimp only
      rw [subEnvCall_collision environ _ acc hcol]
    · refine .inl ⟨if sv then
          pyStrip (sub_env environ (commentSub (pyStrip (m.value.getD "")))
            ((dictGet acc "missing_default").getD "") (dictDelete acc "missing_default"))
        else
          sub_env environ (commentSub (pyStrip (m.value.getD "")))
            ((dictGet acc "missing_default").getD "") (dictDelete acc "missing_default"), ?_⟩
      rw [resolveMatch, if_pos hv]
      dsimp only
      rw [subEnvCall_ok environ _ acc (by simpa using hcol)]

theorem parseLoop_ok_or_raises (environ : String → Option String) (sv : Bool) :
    ∀ (ms : List EnvMatch) (acc : List (String × String)), (∀ m ∈ ms, goodMatch m) →
    (∃ l, parseLoop environ sv ms acc = .ok l) ∨
      (∃ msg, parseLoop environ sv ms acc = .error (.decodeErr msg)) ∨
      (∃ msg, parseLoop environ sv ms acc = .error (.typeErr msg))
  | [], acc, _ => .inl ⟨acc, rfl⟩
  | m :: ms, acc, hg => by
    rw [parseLoop]
    rcases resolveMatch_good_shape environ sv acc m (hg m (by simp)) with
      ⟨v, r⟩ | ⟨msg, r⟩ | ⟨msg, r⟩
    · rw [r]
      exact parseLoop_ok_or_raises environ sv ms _ (fun m2 h2 => hg m2 (by simp [h2]))
    · rw [r]
      exact .inr (.inl ⟨msg, rfl⟩)
    · rw [r]
      exact .inr (.inr ⟨msg, rfl⟩)

/-! ### Resolution with different environments keeps success and keys -/

/-- Keys of the ordered mapping, in order. -/
def keys (l : List (String × String)) : List String := l.map Prod.fst

/-- Key list after a `dict` assignment, as a function of the old key list. -/
def keysAfter (ks : List String) (n : String) : List String :=
  if n ∈ ks then ks else ks ++ [n]

theorem keys_dictSet (l : List (String × String)) (n v : String) :
    keys (dictSet l n v) = keysAfter (keys l) n := by
  induction l with
  | nil => simp [dictSet, keys, keysAfter]
  | cons p t ih =>
    obtain ⟨k, w⟩ := p
    rw [dictSet]
    by_cases hk : k = n
    · subst hk
      simp [keys, keysAfter]
    · rw [if_neg (by simpa using hk)]
      simp only [keys, List.map_cons] at ih ⊢
      rw [ih]
      simp only [keysAfter, List.mem_cons]
      by_cases hm : n ∈ List.map Prod.fst t
      · simp [hm, hk, Ne.symm hk]
      · simp [hm, hk, Ne.symm hk]

theorem dictGet_isSome_iff : ∀ (l : List (String × String)) (n : String),
    (dictGet l n).isSome = true ↔ n ∈ keys l
  | [], n => by simp [dictGet, keys]
  | (k, w) :: t, n => by
    rw [dictGet]
    by_cases hk : (k == n) = true
    · rw [beq_iff_eq] at hk
      subst hk
      simp [keys]
    · rw [if_neg hk]
      rw [dictGet_isSome_iff t n]
      have hne : ¬ n = k := fun h => hk (by simp [h])
      simp [keys, List.mem_cons, hne]

theorem dictGet_isSome_congr {l l2 : List (String × String)} (n : String)
    (hk : keys l = keys l2) : (dictGet l n).isSome = (dictGet l2 n).isSome := by
  cases h2 : (dictGet l2 n).isSome
  · cases h1 : (dictGet l n).isSome
    · rfl
    · exact absurd ((dictGet_isSome_iff l2 n).mpr
        (hk ▸ (dictGet_isSome_iff l n).mp h1)) (by simp [h2])
  · exact (dictGet_isSome_iff l n).mpr (hk.symm ▸ (dictGet_isSome_iff l2 n).mp h2)

/-- The loop body run under two different ambient environments (and strip
flags) on mappings with the same keys either fails with the same error in
both, or sets the same name in both: which branch is taken depends only on
the match and the key set, not on the substitution context. -/
theorem resolveMatch_parallel (env env2 : String → Option String) (sv sv2 : Bool)
    (acc acc2 : List (String × String)) (m : EnvMatch) (hk : keys acc = keys acc2) :
    (∃ e, resolveMatch env sv acc m = .error e ∧ resolveMatch env2 sv2 acc2 m = .error e) ∨
      (∃ v v2, resolveMatch env sv acc m = .ok (dictSet acc m.name v) ∧
        resolveMatch env2 sv2 acc2 m = .ok (dictSet acc2 m.name v2)) := by
  have hcc : (dictGet acc "string").isSome = (dictGet acc2 "string").isSome :=
    dictGet_isSome_congr "string" hk
  by_cases hv : (m.value.getD "") = ""
  · by_cases hq : (m.qvalue.getD "") = ""
    · refine .inl ⟨.notImplemented, ?_, ?_⟩ <;>
        rw [resolveMatch, if_neg (by simpa using hv), if_neg (by simpa using hq)]
    · by_cases hdq : (m.quote.getD "").data.contains '"' = true
      · cases hde : unicodeEscapeDecode ⟨escQuoteSub (m.qvalue.getD "").data⟩ with
        | error msg =>
          refine .inl ⟨.decodeErr msg, ?_, ?_⟩ <;>
            rw [resolveMatch, if_neg (by simpa using hv), if_pos hq, if_pos hdq, hde]
        | ok decoded =>
          by_cases hcol : (dictGet acc "string").isSome = true
          · have hcol2 : (dictGet acc2 "string").isSome = true := hcc.symm.trans hcol
            refine .inl
              ⟨.typeErr "sub_env() got multiple values for argument \x27string\x27", ?_, ?_⟩
            · rw [resolveMatch, if_neg (by simpa using hv), if_pos hq, if_pos hdq, hde]
              dsimp only
              rw [subEnvCall_collision env decoded acc hcol]
            · rw [resolveMatch, if_neg (by simpa using hv), if_pos hq, if_pos hdq, hde]
              dsimp only
              rw [subEnvCall_collision env2 decoded acc2 hcol2]
          · have hcolf : (dictGet acc "string").isSome = false := by simpa using hcol
            have hcolf2 : (dictGet acc2 "string").isSome = false := hcc.symm.trans hcolf
            refine .inr
              ⟨sub_env env decoded ((dictGet acc "missing_default").getD "")
                  (dictDelete acc "missing_default"),
                sub_env env2 decoded ((dictGet acc2 "missing_default").getD "")
                  (dictDelete acc2 "missing_default"), ?_, ?_⟩
            · rw [resolveMatch, if_neg (by simpa using hv), if_pos hq, if_pos hdq, hde]
              dsimp only
              rw [subEnvCall_ok env decoded acc hcolf]
            · rw [resolveMatch, if_neg (by simpa using hv), if_pos hq, if_pos hdq, hde]
              dsimp only
              rw [subEnvCall_ok env2 decoded acc2 hcolf2]
      · refine .inr ⟨⟨escQuoteSub (m.qvalue.getD "").data⟩,
          ⟨escQuoteSub (m.qvalue.getD "").data⟩, ?_, ?_⟩ <;>
          rw [resolveMatch, if_neg (by simpa using hv), if_pos hq, if_neg hdq]
  · by_cases hcol : (dictGet acc "string").isSome = true
    · have hcol2 : (dictGet acc2 "string").isSome = true := hcc.symm.trans hcol
      refine .inl
        ⟨.typeErr "sub_env() got multiple values for argument \x27string\x27", ?_, ?_⟩
      · rw [resolveMatch, if_pos hv]
        dsimp only
        rw [subEnvCall_collision env _ acc hcol]
      · rw [resolveMatch, if_pos hv]
        dsimp only
        rw [subEnvCall_collision env2 _ acc2 hcol2]
    · have hcolf : (dictGet acc "string").isSome = false := by simpa using hcol
      have hcolf2 : (dictGet acc2 "string").isSome = false := hcc.symm.trans hcolf
      refine .inr ⟨if sv then
            pyStrip (sub_env env (commentSub (pyStrip (m.value.getD "")))
              ((dictGet acc "missing_default").getD "") (dictDelete acc "missing_default"))
          else
            sub_env env (commentSub (pyStrip (m.value.getD "")))
              ((dictGet acc "missing_default").getD "") (dictDelete acc "missing_default"),
          if sv2 then
            pyStrip (sub_env env2 (commentSub (pyStrip (m.value.getD "")))
              ((dictGet acc2 "missing_default").getD "") (dictDelete acc2 "missing_default"))
          else
            sub_env env2 (commentSub (pyStrip (m.value.getD "")))
              ((dictGet acc2 "missing_default").getD "") (dictDelete acc2 "missing_default"),
          ?_, ?_⟩
      · rw [resolveMatch, if_pos hv]
        dsimp only
        rw [subEnvCall_ok env _ acc hcolf]
      · rw [resolveMatch, if_pos hv]
        dsimp only
        rw [subEnvCall_ok env2 _ acc2 hcolf2]

/-- The resolution loop run under two different ambient environments (and
strip flags) either fails with the same error in both, or succeeds in both
with mappings carrying the same keys: whether a variable ends up in the
result depends only on the text, not on the substitution context. -/
theorem parseLoop_parallel (sv sv2 : Bool)
    (env env2 : String → Option String) :
    ∀ (ms : List EnvMatch) (acc acc2 : List (String × String)), keys acc = keys acc2 →
    (∃ e, parseLoop env sv ms acc = .error e ∧ parseLoop env2 sv2 ms acc2 = .error e) ∨
      (∃ l l2, parseLoop env sv ms acc = .ok l ∧ parseLoop env2 sv2 ms acc2 = .ok l2 ∧
        keys l = keys l2)
  | [], acc, acc2, hk => .inr ⟨acc, acc2, rfl, rfl, hk⟩
  | m :: ms, acc, acc2, hk => by
    rw [parseLoop, parseLoop]
    rcases resolveMatch_parallel env env2 sv sv2 acc acc2 m hk with
      ⟨e, r1, r2⟩ | ⟨v, v2, r1, r2⟩
    · rw [r1, r2]
      exact .inl ⟨e, rfl, rfl⟩
    · rw [r1, r2]
      exact parseLoop_parallel sv sv2 env env2 ms _ _
        (by rw [keys_dictSet, keys_dictSet, hk])

/-! ### The loader loop -/

theorem foldl_apply_mono (ov : Bool) :
    ∀ (l : List (String × String)) (c : Nat) (env : String → Option String) (n : String),
    (env n).isSome = true → (((l.foldl (applyEnvVar ov) (c, env)).2) n).isSome = true
  | [], _, _, _, h => h
  | (nm, v) :: t, c, env, n, h => by
    rw [List.foldl_cons]
    rw [applyEnvVar]
    split
    · exact foldl_apply_mono ov t c env n h
    · refine foldl_apply_mono ov t (c + 1) _ n ?_
      rw [updateEnv]
      by_cases he : n = nm
      · simp [he]
      · simp [he, h]

theorem foldl_apply_sets (ov : Bool) :
    ∀ (l : List (String × String)) (c : Nat) (env : String → Option String) (n : String),
    n ∈ keys l → (((l.foldl (applyEnvVar ov) (c, env)).2) n).isSome = true
  | [], _, _, n, h => absurd h (by simp [keys])
  | (nm, v) :: t, c, env, n, h => by
    rw [List.foldl_cons]
    rcases List.mem_cons.mp (show n ∈ nm :: keys t from h) with rfl | h2
    · rw [applyEnvVar]
      split
      · rename_i hcond
        refine foldl_apply_mono ov t c env n ?_
        simp only [Bool.and_eq_true] at hcond
        exact hcond.1
      · refine foldl_apply_mono ov t (c + 1) _ n ?_
        simp [updateEnv]
    · exact foldl_apply_sets ov t _ _ n h2

theorem foldl_apply_all_skip :
    ∀ (l : List (String × String)) (c : Nat) (env : String → Option String),
    (∀ p ∈ l, (env p.1).isSome = true) → l.foldl (applyEnvVar false) (c, env) = (c, env)
  | [], _, _, _ => rfl
  | (nm, v) :: t, c, env, h => by
    rw [List.foldl_cons, applyEnvVar]
    rw [if_pos (by simp [h (nm, v) (by simp)])]
    exact foldl_apply_all_skip t c env (fun p hp => h p (by simp [hp]))

/-! ### Parses of whole files built around an arbitrary variable name -/

theorem parse_c4_single (environ : String → Option String) (other : String) (sv : Bool)
    (h : isValidName other.data = true) :
    parse_env_str environ ("NAME=\x27\x7b" ++ other ++ "\x7d\x27") sv =
      .ok [("NAME", "\x7b" ++ other ++ "\x7d")] := by
  have hchars := validName_all h
  have hfm : findMatches (("NAME=\x27\x7b" ++ other ++ "\x7d\x27").data) =
      [⟨"NAME", some "\x27", some ⟨'\x7b' :: (other.data ++ ['\x7d'])⟩, none⟩] := by
    rw [findMatches, show ("NAME=\x27\x7b" ++ other ++ "\x7d\x27").data =
      'N' :: 'A' :: 'M' :: 'E' :: '=' :: '\x27' :: '\x7b' ::
        (other.data ++ ['\x7d', '\x27']) from rfl]
    rw [scanAux_succ, matchAt_c4 other.data hchars]
    simp [scanAux_nil]
  show parseLoop environ sv (findMatches (("NAME=\x27\x7b" ++ other ++ "\x7d\x27").data)) [] = _
  rw [hfm]
  have hres : parseLoop environ sv
      [⟨"NAME", some "\x27", some ⟨'\x7b' :: (other.data ++ ['\x7d'])⟩, none⟩] [] =
      .ok [("NAME", ⟨escQuoteSub ('\x7b' :: (other.data ++ ['\x7d']))⟩)] := rfl
  rw [hres, escQuoteSub_id]
  · rfl
  · intro e he
    rcases List.mem_cons.mp he with rfl | he2
    · decide
    · rcases List.mem_append.mp he2 with h3 | h3
      · exact isNameChar_beq_false (hchars e h3) (by decide)
      · simp only [List.mem_singleton] at h3; subst h3; decide

theorem parse_c4_triple (environ : String → Option String) (other : String) (sv : Bool)
    (h : isValidName other.data = true) :
    parse_env_str environ ("NAME=\x27\x27\x27\x7b" ++ other ++ "\x7d\x27\x27\x27") sv =
      .ok [("NAME", "\x7b" ++ other ++ "\x7d")] := by
  have hchars := validName_all h
  have hfm : findMatches (("NAME=\x27\x27\x27\x7b" ++ other ++ "\x7d\x27\x27\x27").data) =
      [⟨"NAME", some "\x27\x27\x27", some ⟨'\x7b' :: (other.data ++ ['\x7d'])⟩, none⟩] := by
    rw [findMatches, show ("NAME=\x27\x27\x27\x7b" ++ other ++ "\x7d\x27\x27\x27").data =
      'N' :: 'A' :: 'M' :: 'E' :: '=' :: '\x27' :: '\x27' :: '\x27' :: '\x7b' ::
        (other.data ++ ['\x7d', '\x27', '\x27', '\x27']) from rfl]
    rw [scanAux_succ, matchAt_c4t other.data hchars]
    simp [scanAux_nil]
  show parseLoop environ sv
      (findMatches (("NAME=\x27\x27\x27\x7b" ++ other ++ "\x7d\x27\x27\x27").data)) [] = _
  rw [hfm]
  have hres : parseLoop environ sv
      [⟨"NAME", some "\x27\x27\x27", some ⟨'\x7b' :: (other.data ++ ['\x7d'])⟩, none⟩] [] =
      .ok [("NAME", ⟨escQuoteSub ('\x7b' :: (other.data ++ ['\x7d']))⟩)] := rfl
  rw [hres, escQuoteSub_id]
  · rfl
  · intro e he
    rcases List.mem_cons.mp he with rfl | he2
    · decide
    · rcases List.mem_append.mp he2 with h3 | h3
      · exact isNameChar_beq_false (hchars e h3) (by decide)
      · simp only [List.mem_singleton] at h3; subst h3; decide

theorem parse_c10_single (environ : String → Option String) (nm : String) (sv : Bool)
    (h : isValidName nm.data = true) :
    parse_env_str environ (nm ++ "=\x27\x27") sv = .ok [] := by
  match hc : nm.data, h with
  | c :: cs, h =>
    simp only [isValidName, Bool.and_eq_true, List.all_eq_true] at h
    have hdata : (nm ++ "=\x27\x27").data = c :: (cs ++ '=' :: ['\x27', '\x27']) := by
      have hd : (nm ++ "=\x27\x27").data = nm.data ++ ['=', '\x27', '\x27'] := rfl
      rw [hd, hc]
      rfl
    show parseLoop environ sv (findMatches ((nm ++ "=\x27\x27").data)) [] = _
    rw [hdata, findMatches]
    rw [scan_name_fail c cs ['\x27', '\x27'] h.1 (fun e he => h.2 e he) (by rfl)
      (by intro d hd; fin_cases hd <;> rfl)]
    rfl

theorem parse_c10_double (environ : String → Option String) (nm : String) (sv : Bool)
    (h : isValidName nm.data = true) :
    parse_env_str environ (nm ++ "=\"\"") sv = .ok [] := by
  match hc : nm.data, h with
  | c :: cs, h =>
    simp only [isValidName, Bool.and_eq_true, List.all_eq_true] at h
    have hdata : (nm ++ "=\"\"").data = c :: (cs ++ '=' :: ['"', '"']) := by
      have hd : (nm ++ "=\"\"").data = nm.data ++ ['=', '"', '"'] := rfl
      rw [hd, hc]
      rfl
    show parseLoop environ sv (findMatches ((nm ++ "=\"\"").data)) [] = _
    rw [hdata, findMatches]
    rw [scan_name_fail c cs ['"', '"'] h.1 (fun e he => h.2 e he) (by rfl)
      (by intro d hd; fin_cases hd <;> rfl)]
    rfl

/-! ### Concrete environments and filesystems used by the claim instances -/

/-- Empty process environment. -/
def envEmpty : String → Option String := fun _ => none

/-- Process environment where only `FOO` is set, to `live`. -/
def envLive : String → Option String := fun k => if k = "FOO" then some "live" else none

/-- Process environment where every name is set (to `boom`): substitution
would be visible on any placeholder. -/
def envAll : String → Option String := fun _ => some "boom"

/-- Filesystem with a single dotenv file `.env`. -/
def fsC7 : String → Except ReadErr String :=
  fun p => if p = ".env" then .ok "A=1\nB=${A}2" else .error .fileNotFound

/-- Environment after loading `.env` from `fsC7` into `envEmpty`. -/
def envC7 : String → Option String := updateEnv (updateEnv envEmpty "A" "1") "B" "12"

/-- Filesystem whose reads fail with an error other than
`FileNotFoundError` (a permission error). -/
def fsDenied : String → Except ReadErr String := fun _ => .error (.otherErr "Permission denied")

/-- Filesystem with no files at all. -/
def fsMissing : String → Except ReadErr String := fun _ => .error .fileNotFound

/-! ## The claims -/

/-- Claim C1: substitution precedence.  Resolving a placeholder `${NAME}`
or `{NAME}` replaces it, in priority order, by (1) the live process
environment value of `NAME` if set, (2) the value already resolved for
`NAME` earlier in the same file if present, (3) the caller-supplied
default (empty by default).  In particular with `FOO=live` in the process
environment, the file `FOO=filedefault` then `BAR=${FOO}` resolves `BAR`
to `live`, not `filedefault`. -/
theorem C1_substitution_precedence :
    (∀ (environ : String → Option String) (kwargs : List (String × String))
        (dflt nm : String), isValidName nm.data = true →
      sub_env environ ("$\x7b" ++ nm ++ "\x7d") dflt kwargs =
          (environ nm).getD ((dictGet kwargs nm).getD dflt) ∧
        sub_env environ ("\x7b" ++ nm ++ "\x7d") dflt kwargs =
          (environ nm).getD ((dictGet kwargs nm).getD dflt)) ∧
    (∀ environ : String → Option String, environ "FOO" = some "live" →
      parse_env_str environ "FOO=filedefault\nBAR=${FOO}" true =
        .ok [("FOO", "filedefault"), ("BAR", "live")]) := by
  constructor
  · intro environ kwargs dflt nm h
    exact ⟨sub_env_dollar environ kwargs dflt nm h, sub_env_brace environ kwargs dflt nm h⟩
  · intro environ h
    have hs : sub_env environ "${FOO}" "" [("FOO", "filedefault")] = "live" := by
      have h1 : sub_env environ "${FOO}" "" [("FOO", "filedefault")] =
          ⟨(subFunc environ [("FOO", "filedefault")] "" "FOO").data ++
            subEnvAux environ [("FOO", "filedefault")] "" 6 []⟩ := rfl
      rw [h1]
      simp only [subFunc]
      rw [h]
      rfl
    have h2 : parse_env_str environ "FOO=filedefault\nBAR=${FOO}" true =
        .ok (dictSet [("FOO", "filedefault")] "BAR"
          (pyStrip (sub_env environ "${FOO}" "" [("FOO", "filedefault")]))) := rfl
    rw [h2, hs]
    rfl

/-- Witness for C1 at a concrete environment and name. -/
theorem C1_substitution_precedence_witness :
    (isValidName "FOO".data = true ∧
      sub_env envLive ("$\x7b" ++ "FOO" ++ "\x7d") "dflt" [("FOO", "filedefault")] = "live") ∧
    (envLive "FOO" = some "live" ∧
      parse_env_str envLive "FOO=filedefault\nBAR=${FOO}" true =
        .ok [("FOO", "filedefault"), ("BAR", "live")]) :=
  ⟨⟨rfl, ((C1_substitution_precedence.1 envLive [("FOO", "filedefault")] "dflt" "FOO"
      rfl).1).trans rfl⟩,
   ⟨rfl, C1_substitution_precedence.2 envLive rfl⟩⟩

/-- Claim C2: order dependency of resolution.  Entries are resolved in
file order and each substitution sees the values already resolved for
earlier names: for `A=1` followed by `B=${A}2`, with `A` unset in the
process environment, `B` resolves to `12`. -/
theorem C2_order_dependency (environ : String → Option String) (h : environ "A" = none) :
    parse_env_str environ "A=1\nB=${A}2" true = .ok [("A", "1"), ("B", "12")] := by
  have hs : sub_env environ "${A}2" "" [("A", "1")] = "12" := by
    have h1 : sub_env environ "${A}2" "" [("A", "1")] =
        ⟨(subFunc environ [("A", "1")] "" "A").data ++ ['2']⟩ := rfl
    rw [h1]
    simp only [subFunc]
    rw [h]
    rfl
  have h2 : parse_env_str environ "A=1\nB=${A}2" true =
      .ok (dictSet [("A", "1")] "B" (pyStrip (sub_env environ "${A}2" "" [("A", "1")]))) := rfl
  rw [h2, hs]
  rfl

/-- Witness for C2 in the empty environment. -/
theorem C2_order_dependency_witness :
    envEmpty "A" = none ∧
      parse_env_str envEmpty "A=1\nB=${A}2" true = .ok [("A", "1"), ("B", "12")] :=
  ⟨rfl, C2_order_dependency envEmpty rfl⟩

/-- Claim C3, counterexample: the claim says `parse_env_str` returns
normally for every input, but the double-quoted value `\x` makes
`codecs.decode(value, "unicode_escape")` raise `UnicodeDecodeError`
(truncated `\xXX` escape), which propagates to the caller. -/
theorem C3_counterexample :
    parse_env_str envEmpty "A=\"\\x\"" true = .error (.decodeErr "truncated hex escape") := rfl

/-- Claim C3 as amended: `parse_env_str` never reaches the
`raise NotImplementedError` branch — every run returns a mapping, or
propagates an escape-decoding error of a double-quoted value, or
propagates the `TypeError` that the keyword binding of
`sub_env(value, **env_vars)` raises once a variable literally named
`string` has been parsed (as on the file `string=1` then `A=2`) — and a
malformed assignment line is silently skipped, producing no entry. -/
theorem C3_amended :
    (∀ (environ : String → Option String) (s : String) (sv : Bool),
      (∃ l, parse_env_str environ s sv = .ok l) ∨
        (∃ msg, parse_env_str environ s sv = .error (.decodeErr msg)) ∨
        (∃ msg, parse_env_str environ s sv = .error (.typeErr msg))) ∧
    (∀ environ : String → Option String,
      parse_env_str environ "string=1\nA=2" true =
        .error (.typeErr "sub_env() got multiple values for argument \x27string\x27")) ∧
    (∀ environ : String → Option String,
      parse_env_str environ "not a valid line!!\nA=1" true = .ok [("A", "1")]) :=
  ⟨fun environ s sv => parseLoop_ok_or_raises environ sv (findMatches s.data) []
      (fun m hm => findMatches_good s.data m hm),
   fun _ => rfl,
   fun _ => rfl⟩

/-- Claim C4: single-quoted (and triple-single-quoted) values are used
literally, never substituted: for every name `OTHER` and every ambient
environment, `NAME='{OTHER}'` parses to the literal string `{OTHER}`. -/
theorem C4_single_quoted_literal (environ : String → Option String) (other : String)
    (sv : Bool) (h : isValidName other.data = true) :
    parse_env_str environ ("NAME=\x27\x7b" ++ other ++ "\x7d\x27") sv =
        .ok [("NAME", "\x7b" ++ other ++ "\x7d")] ∧
      parse_env_str environ ("NAME=\x27\x27\x27\x7b" ++ other ++ "\x7d\x27\x27\x27") sv =
        .ok [("NAME", "\x7b" ++ other ++ "\x7d")] :=
  ⟨parse_c4_single environ other sv h, parse_c4_triple environ other sv h⟩

/-- Witness for C4: even with every variable set in the ambient
environment, the single-quoted placeholder is kept verbatim. -/
theorem C4_single_quoted_literal_witness :
    isValidName "OTHER".data = true ∧
      parse_env_str envAll ("NAME=\x27\x7b" ++ "OTHER" ++ "\x7d\x27") true =
        .ok [("NAME", "\x7b" ++ "OTHER" ++ "\x7d")] :=
  ⟨rfl, (C4_single_quoted_literal envAll "OTHER" true rfl).1⟩

/-- Claim C5: double-quoted values undergo escaped-quote unescaping, then
full escape-sequence decoding, then substitution: `NAME="a\nb"` parses to
`a`, a real newline, `b` — in every ambient environment and for either
strip flag. -/
theorem C5_double_quoted_escape (environ : String → Option String) (sv : Bool) :
    parse_env_str environ "NAME=\"a\\nb\"" sv = .ok [("NAME", "a\nb")] := rfl

/-- Claim C6: comment stripping respects escaping.
`NAME=value \#not-a-comment` keeps the escaped `#` (and the whole tail),
`NAME=value # real comment` strips to exactly `value`, and a `#` inside a
quoted value is not treated as a comment. -/
theorem C6_comment_stripping (environ : String → Option String) :
    parse_env_str environ "NAME=value \\#not-a-comment" true =
        .ok [("NAME", "value \\#not-a-comment")] ∧
      parse_env_str environ "NAME=value # real comment" true = .ok [("NAME", "value")] ∧
      parse_env_str environ "NAME=\"v # c\"" true = .ok [("NAME", "v # c")] :=
  ⟨rfl, rfl, rfl⟩

/-- Claim C7: idempotence of loading without overwrite.  If a first
`load_env` call returned normally, a second call on the same file with
`overwrite = False` applies 0 variables and leaves the process
environment exactly as the first call left it (the logs also repeat). -/
theorem C7_load_without_overwrite_idempotent (fs : String → Except ReadErr String)
    (environ : String → Option String) (p : String) (sv : Bool)
    (n1 : Nat) (env1 : String → Option String) (logs : List String)
    (h : load_env fs environ p false sv = .ok (n1, env1, logs)) :
    load_env fs env1 p false sv = .ok (0, env1, logs) := by
  rw [load_env] at h ⊢
  cases hfs : fs p with
  | error e =>
    rw [hfs] at h
    cases e with
    | fileNotFound =>
      simp only [Except.ok.injEq, Prod.mk.injEq] at h
      obtain ⟨h2, h3, h4⟩ := h
      subst h3 h4
      rfl
    | otherErr msg => exact Except.noConfusion h
  | ok string =>
    rw [hfs] at h
    dsimp only at h ⊢
    cases hp : parse_env_str environ string sv with
    | error e => rw [hp] at h; exact Except.noConfusion h
    | ok env_vars =>
      rw [hp] at h
      simp only [Except.ok.injEq, Prod.mk.injEq] at h
      obtain ⟨h2, h3, h4⟩ := h
      subst h4
      rcases parseLoop_parallel sv sv environ env1 (findMatches string.data) [] [] rfl with
        ⟨e, he1, he2⟩ | ⟨l, l2, hl1, hl2, hkeys⟩
      · exact absurd (he1.symm.trans hp) (by intro hc; exact Except.noConfusion hc)
      · have hl : l = env_vars := Except.ok.inj (hl1.symm.trans hp)
        subst hl
        have hp2 : parse_env_str env1 string sv = .ok l2 := hl2
        rw [hp2]
        dsimp only
        have hall : ∀ q ∈ l2, (env1 q.1).isSome = true := by
          intro q hq
          rw [← h3]
          exact foldl_apply_sets false l 0 environ q.1
            (by rw [hkeys]; exact List.mem_map_of_mem Prod.fst hq)
        rw [foldl_apply_all_skip l2 0 env1 hall]

/-- Witness for C7: the two-entry file `.env` applies 2 variables the
first time and 0 the second time, leaving the environment unchanged. -/
theorem C7_load_without_overwrite_idempotent_witness :
    load_env fsC7 envEmpty ".env" false true = .ok (2, envC7, []) ∧
      load_env fsC7 envC7 ".env" false true = .ok (0, envC7, []) :=
  ⟨rfl, C7_load_without_overwrite_idempotent fsC7 envEmpty ".env" true 2 envC7 [] rfl⟩

/-- Claim C8, counterexample: the claim says every unreadable file makes
`load_env` return 0 without an exception, but only `FileNotFoundError` is
caught — a read failing with a permission error propagates to the
caller. -/
theorem C8_counterexample :
    load_env fsDenied envEmpty "secrets.env" false true =
      .error (.ioErr "Permission denied") := rfl

/-- Claim C8 as amended: for every filepath that does not exist
(`FileNotFoundError`), `load_env` returns 0 applied, logs the condition,
and raises nothing; read failures other than `FileNotFoundError`
propagate. -/
theorem C8_amended (fs : String → Except ReadErr String) (environ : String → Option String)
    (p : String) (ov sv : Bool) (h : fs p = .error .fileNotFound) :
    load_env fs environ p ov sv =
      .ok (0, environ, ["Could not file the file \x27" ++ p ++ "\x27"]) := by
  rw [load_env, h]

/-- Witness for C8 as amended, on a filesystem with no files. -/
theorem C8_amended_witness :
    fsMissing "missing.env" = .error .fileNotFound ∧
      load_env fsMissing envEmpty "missing.env" false true =
        .ok (0, envEmpty, ["Could not file the file \x27" ++ "missing.env" ++ "\x27"]) :=
  ⟨rfl, C8_amended fsMissing envEmpty "missing.env" false true rfl⟩

/-- Claim C9, counterexample: the claim says every non-triple-quoted value
is stripped of surrounding whitespace after all other processing when the
strip flag (default) is set; but the double-quoted value `"\ta\t"`, whose
decoding produces surrounding tabs, is stored unstripped even with
`strip_values = True`: the result keeps the tabs and differs from its
stripped form. -/
theorem C9_counterexample :
    parse_env_str envEmpty "NAME=\"\\ta\\t\"" true = .ok [("NAME", "\ta\t")] ∧
      pyStrip "\ta\t" = "a" ∧ ("\ta\t" : String) ≠ "a" :=
  ⟨rfl, rfl, by decide⟩

/-- Claim C9 as amended: the strip flag only affects unquoted values.
Quoted values (single like double, non-triple included) are never touched
by the strip step, whatever the flag; the grammar itself removes the
whitespace between the quote markers and the content; unquoted values are
stripped unconditionally before comment stripping and substitution, and
stripped again after them exactly when the flag is set. -/
theorem C9_amended (environ : String → Option String) :
    (∀ sv, parse_env_str environ "NAME=\"\\ta\\t\"" sv = .ok [("NAME", "\ta\t")]) ∧
      (∀ sv, parse_env_str environ "NAME=\x27  x  \x27" sv = .ok [("NAME", "x")]) ∧
      parse_env_str environ "NAME=  x  " false = .ok [("NAME", "x")] ∧
      parse_env_str environ "NAME=x # c" false = .ok [("NAME", "x ")] ∧
      parse_env_str environ "NAME=x # c" true = .ok [("NAME", "x")] :=
  ⟨fun _ => rfl, fun _ => rfl, rfl, rfl, rfl⟩

/-- Claim C10: empty quoted values are silently dropped.  For every valid
name, ambient environment and strip flag, the lines `NAME=''` and
`NAME=""` produce no entry at all: the quoted-value group needs at least
one character and the unquoted group excludes quote characters, so the
line matches neither alternative. -/
theorem C10_empty_quoted_dropped (environ : String → Option String) (nm : String)
    (sv : Bool) (h : isValidName nm.data = true) :
    parse_env_str environ (nm ++ "=\x27\x27") sv = .ok [] ∧
      parse_env_str environ (nm ++ "=\"\"") sv = .ok [] :=
  ⟨parse_c10_single environ nm sv h, parse_c10_double environ nm sv h⟩

/-- Witness for C10 at the name `NAME`. -/
theorem C10_empty_quoted_dropped_witness :
    isValidName "NAME".data = true ∧
      parse_env_str envEmpty ("NAME" ++ "=\x27\x27") true = .ok [] :=
  ⟨rfl, (C10_empty_quoted_dropped envEmpty "NAME" true rfl).1⟩

end Geomancy
